import Mathlib

/-!
# Verification of the `pachislot-counter` statistics core

A shallow embedding, over exact rationals, of `src/statistics_utils.py`:
the exact two-sided binomial test, relative-likelihood normalization,
verdict classification, confidence intervals and probability-input parsing.

Python exceptions are modelled as `none` in `Option`-valued results.
The scipy/numpy library calls the module makes are modelled by their
documented mathematical semantics:
  * `scipy.stats.binom.pmf` is the binomial probability mass function
    (zero outside the support `0 ≤ k ≤ n`);
  * `scipy.stats.binomtest(k, n, p, alternative="two-sided").pvalue` is the
    sum of the PMF over all outcomes whose PMF is at most the PMF of the
    observed count, and it raises `ValueError` when `k` is outside `[0, n]`;
  * `scipy.stats.norm.ppf` and `numpy.sqrt` appear only inside the
    confidence-interval formula and are kept as abstract function
    parameters, since no claim depends on their numeric values.
-/

namespace Pachislot

/-- The binomial probability mass function `C(n,k) pᵏ (1-p)^(n-k)`, the model of
`scipy.stats.binom.pmf(k, n, p)` for a natural-number count `k`
(for `k > n` the binomial coefficient, hence the PMF, is `0`). -/
def binomPMF (n k : ℕ) (p : ℚ) : ℚ :=
  (n.choose k : ℚ) * p ^ k * (1 - p) ^ (n - k)

/-- Model of `scipy.stats.binomtest(k, n, p, alternative="two-sided").pvalue`
for in-range `k`: the sum, over all outcome counts `j` in `[0, n]`, of the
binomial PMF at `j` whenever that PMF is `≤` the PMF at the observed `k`. -/
def binomTestTwoSided (k n : ℕ) (p : ℚ) : ℚ :=
  ∑ j ∈ Finset.range (n + 1),
    if binomPMF n j p ≤ binomPMF n k p then binomPMF n j p else 0

/-- `binomial_p_value(n, k, p)` from `src/statistics_utils.py`:
guard `n ≤ 0 or p ≤ 0 or p ≥ 1` returns `1.0`; otherwise the call is
delegated to `scipy.stats.binomtest`, which raises (`none`) when `k` is
outside `[0, n]` and otherwise returns the two-sided exact p-value. -/
def binomial_p_value (n k : ℤ) (p : ℚ) : Option ℚ :=
  if n ≤ 0 ∨ p ≤ 0 ∨ 1 ≤ p then some 1
  else if k < 0 ∨ n < k then none
  else some (binomTestTwoSided k.toNat n.toNat p)

/-- `calculate_likelihood(n, k, p)` from `src/statistics_utils.py`:
guard `n ≤ 0 or p ≤ 0 or p ≥ 1` returns `0.0`; otherwise
`scipy.stats.binom.pmf(k, n, p)`, which is `0` for `k` outside `[0, n]`. -/
def calculate_likelihood (n k : ℤ) (p : ℚ) : ℚ :=
  if n ≤ 0 ∨ p ≤ 0 ∨ 1 ≤ p then 0
  else if k < 0 then 0
  else binomPMF n.toNat k.toNat p

/-- `calculate_relative_likelihood(n, k, probabilities)` from
`src/statistics_utils.py`: per-entry likelihoods, normalized by their sum;
when the sum is `0` the code evaluates `1.0 / len(probabilities)`, which on
the empty list raises `ZeroDivisionError` (modelled `none`). -/
def calculate_relative_likelihood (n k : ℤ) (probabilities : List ℚ) :
    Option (List ℚ) :=
  let likelihoods := probabilities.map (calculate_likelihood n k)
  let total := likelihoods.sum
  if total = 0 then
    if probabilities.length = 0 then none
    else some (List.replicate probabilities.length
      (1 / (probabilities.length : ℚ)))
  else some (likelihoods.map (fun l => l / total))

/-- `evaluate_setting(p_value, significance)` from `src/statistics_utils.py`
(the Python default for `significance` is `0.05`). -/
def evaluate_setting (p_value significance : ℚ) : String × String :=
  if p_value < significance / 2 then ("✗", "否定的")
  else if p_value < significance then ("△", "やや否定的")
  else if p_value < 1/4 then ("○", "可能性あり")
  else ("◎", "高い可能性")

/-- `get_confidence_interval(p, n, confidence)` from `src/statistics_utils.py`.
`ppf` models `scipy.stats.norm.ppf` and `sqrt` models `numpy.sqrt`; both are
abstract parameters because no claim depends on their numeric values. -/
def get_confidence_interval (ppf sqrt : ℚ → ℚ) (p : ℚ) (n : ℤ)
    (confidence : ℚ) : ℚ × ℚ :=
  if n ≤ 0 then (0, 1)
  else
    let z := ppf ((1 + confidence) / 2)
    let se := sqrt (p * (1 - p) / (n : ℚ))
    (max 0 (p - z * se), min 1 (p + z * se))

/-- `get_expected_count_range(p, n, confidence)` from
`src/statistics_utils.py`: both confidence-interval bounds scaled by `n`. -/
def get_expected_count_range (ppf sqrt : ℚ → ℚ) (p : ℚ) (n : ℤ)
    (confidence : ℚ) : ℚ × ℚ :=
  let lu := get_confidence_interval ppf sqrt p n confidence
  (lu.1 * (n : ℚ), lu.2 * (n : ℚ))

/-- Python's `str.strip()` on a list of characters: drop whitespace from
both ends. -/
def pyStrip (l : List Char) : List Char :=
  ((l.dropWhile fun c => c.isWhitespace).reverse.dropWhile
    fun c => c.isWhitespace).reverse

/-- Numeric value of one decimal digit character. -/
def digitVal (c : Char) : ℕ := c.toNat - 48

/-- The natural number denoted by a list of decimal digit characters. -/
def natOfDigits (l : List Char) : ℕ := l.foldl (fun a c => a * 10 + digitVal c) 0

/-- An unsigned decimal literal `digits` or `digits.digits` (either side of
the point may be empty, but not both); anything else is a parse failure. -/
def parseUnsignedDecimal (l : List Char) : Option ℚ :=
  let ip := l.takeWhile fun c => c.isDigit
  let rest := l.dropWhile fun c => c.isDigit
  match rest with
  | [] => if ip = [] then none else some ((natOfDigits ip : ℚ))
  | c :: fp =>
    if c = '.' ∧ (fp.all fun d => d.isDigit) ∧ (ip ≠ [] ∨ fp ≠ []) then
      some ((natOfDigits ip : ℚ) + (natOfDigits fp : ℚ) / 10 ^ fp.length)
    else none

/-- Model of Python's built-in `float()` on the (optionally signed, optionally
whitespace-surrounded) plain decimal literals this program feeds it; any
other input is a parse failure (`ValueError`, modelled `none`). -/
def pyFloat (l : List Char) : Option ℚ :=
  match pyStrip l with
  | '+' :: rest => parseUnsignedDecimal rest
  | '-' :: rest => (parseUnsignedDecimal rest).map fun v => -v
  | rest => parseUnsignedDecimal rest

/-- Python's `str.split("/")`: the maximal run-free decomposition at every
slash (so a string with no slash yields one part, `a/b` yields two). -/
def splitOnSlash (l : List Char) : List (List Char) :=
  match l with
  | [] => [[]]
  | c :: rest =>
    let r := splitOnSlash rest
    if c = '/' then [] :: r
    else
      match r with
      | [] => [[c]]
      | h :: t => (c :: h) :: t

/-- The fall-through tail of `parse_probability_input`: parse the whole
(trimmed) string as a decimal `v`; a value `> 1` is read as a denominator. -/
def plainDecimalTail (cs : List Char) : Option ℚ :=
  (pyFloat cs).map fun v => if 1 < v then 1 / v else v

/-- `parse_probability_input(input_str)` from `src/statistics_utils.py`:
trim; a trailing `%` divides the numeric prefix by 100; a two-part `a/b`
with `b ≠ 0` returns `a / b`; otherwise the plain-decimal fall-through
(`none` models a `ValueError` escaping the call). -/
def parse_probability_input (s : String) : Option ℚ :=
  let cs := pyStrip s.data
  if cs.getLast? = some '%' then
    (pyFloat cs.dropLast).map fun v => v / 100
  else
    let parts := splitOnSlash cs
    if parts.length = 2 then
      match pyFloat (parts.getD 0 []), pyFloat (parts.getD 1 []) with
      | some a, some b => if b ≠ 0 then some (a / b) else plainDecimalTail cs
      | _, _ => none
    else plainDecimalTail cs

/-- Written from the spec's words (§4.5), for comparison with the source
translation: `z = Φ⁻¹((1+confidence)/2)`, `se = sqrt(p(1-p)/n)`,
`lower = max(0, p - z·se)`, `upper = min(1, p + z·se)`,
degenerating to `(0, 1)` when `n ≤ 0`. -/
def specConfidenceInterval (ppf sqrt : ℚ → ℚ) (p : ℚ) (n : ℤ)
    (confidence : ℚ) : ℚ × ℚ :=
  if n ≤ 0 then (0, 1)
  else
    (max 0 (p - ppf ((1 + confidence) / 2) * sqrt (p * (1 - p) / (n : ℚ))),
     min 1 (p + ppf ((1 + confidence) / 2) * sqrt (p * (1 - p) / (n : ℚ))))

/-! ## Shared lemmas -/

lemma binomPMF_nonneg {p : ℚ} (hp0 : 0 ≤ p) (hp1 : p ≤ 1) (n k : ℕ) :
    0 ≤ binomPMF n k p := by
  unfold binomPMF
  have h1 : (0:ℚ) ≤ (n.choose k : ℚ) := Nat.cast_nonneg _
  have h2 : (0:ℚ) ≤ p ^ k := pow_nonneg hp0 k
  have h3 : (0:ℚ) ≤ (1 - p) ^ (n - k) := pow_nonneg (by linarith) _
  exact mul_nonneg (mul_nonneg h1 h2) h3

lemma sum_binomPMF (n : ℕ) (p : ℚ) :
    ∑ j ∈ Finset.range (n + 1), binomPMF n j p = 1 := by
  calc ∑ j ∈ Finset.range (n + 1), binomPMF n j p
      = ∑ j ∈ Finset.range (n + 1), p ^ j * (1 - p) ^ (n - j) * (n.choose j : ℚ) :=
        Finset.sum_congr rfl (fun j _ => by unfold binomPMF; ring)
    _ = (p + (1 - p)) ^ n := (add_pow p (1 - p) n).symm
    _ = 1 := by rw [show p + (1 - p) = (1:ℚ) by ring, one_pow]

lemma binomTestTwoSided_nonneg {p : ℚ} (hp0 : 0 ≤ p) (hp1 : p ≤ 1) (k n : ℕ) :
    0 ≤ binomTestTwoSided k n p := by
  unfold binomTestTwoSided
  refine Finset.sum_nonneg fun j _ => ?_
  split
  · exact binomPMF_nonneg hp0 hp1 n j
  · exact le_refl 0

lemma binomTestTwoSided_le_one {p : ℚ} (hp0 : 0 ≤ p) (hp1 : p ≤ 1) (k n : ℕ) :
    binomTestTwoSided k n p ≤ 1 := by
  calc binomTestTwoSided k n p
      ≤ ∑ j ∈ Finset.range (n + 1), binomPMF n j p := by
        unfold binomTestTwoSided
        refine Finset.sum_le_sum fun j _ => ?_
        split
        · exact le_refl _
        · exact binomPMF_nonneg hp0 hp1 n j
    _ = 1 := sum_binomPMF n p

lemma binomial_p_value_in_range {n k : ℤ} {p : ℚ} (hn : 1 ≤ n)
    (hk0 : 0 ≤ k) (hkn : k ≤ n) (hp0 : 0 < p) (hp1 : p < 1) :
    binomial_p_value n k p = some (binomTestTwoSided k.toNat n.toNat p) := by
  unfold binomial_p_value
  rw [if_neg (by push_neg; exact ⟨by linarith, hp0, hp1⟩),
    if_neg (by push_neg; exact ⟨hk0, hkn⟩)]

lemma list_sum_map_div (l : List ℚ) (t : ℚ) :
    (l.map fun x => x / t).sum = l.sum / t := by
  induction l with
  | nil => simp
  | cons a l ih => simp [ih, add_div]

lemma binomPMF_succ_le {n k : ℕ} {p : ℚ} (hp0 : 0 ≤ p) (hp1 : p ≤ 1)
    (hnp : (n : ℚ) * p ≤ k) (hk : k + 1 ≤ n) :
    binomPMF n (k + 1) p ≤ binomPMF n k p := by
  have hkn : k ≤ n := by omega
  have hsub : n - k = (n - (k + 1)) + 1 := by omega
  have hchoose : (n.choose (k + 1) : ℚ) * ((k : ℚ) + 1) =
      (n.choose k : ℚ) * ((n : ℚ) - (k : ℚ)) := by
    have h := congrArg (fun m : ℕ => (m : ℚ)) (Nat.choose_succ_right_eq n k)
    push_cast [Nat.cast_sub hkn] at h
    exact h
  have hkey : ((n : ℚ) - k) * p ≤ ((k : ℚ) + 1) * (1 - p) := by nlinarith
  have hmain : (n.choose (k + 1) : ℚ) * p ≤ (n.choose k : ℚ) * (1 - p) := by
    have hpos : (0 : ℚ) < (k : ℚ) + 1 := by positivity
    rw [← mul_le_mul_right hpos]
    calc (n.choose (k + 1) : ℚ) * p * ((k : ℚ) + 1)
        = ((n.choose (k + 1) : ℚ) * ((k : ℚ) + 1)) * p := by ring
      _ = ((n.choose k : ℚ) * ((n : ℚ) - (k : ℚ))) * p := by rw [hchoose]
      _ = (n.choose k : ℚ) * (((n : ℚ) - k) * p) := by ring
      _ ≤ (n.choose k : ℚ) * (((k : ℚ) + 1) * (1 - p)) :=
          mul_le_mul_of_nonneg_left hkey (Nat.cast_nonneg _)
      _ = (n.choose k : ℚ) * (1 - p) * ((k : ℚ) + 1) := by ring
  have ht : (0 : ℚ) ≤ p ^ k * (1 - p) ^ (n - (k + 1)) :=
    mul_nonneg (pow_nonneg hp0 _) (pow_nonneg (by linarith) _)
  unfold binomPMF
  calc (n.choose (k + 1) : ℚ) * p ^ (k + 1) * (1 - p) ^ (n - (k + 1))
      = ((n.choose (k + 1) : ℚ) * p) * (p ^ k * (1 - p) ^ (n - (k + 1))) := by
        rw [pow_succ]; ring
    _ ≤ ((n.choose k : ℚ) * (1 - p)) * (p ^ k * (1 - p) ^ (n - (k + 1))) :=
        mul_le_mul_of_nonneg_right hmain ht
    _ = (n.choose k : ℚ) * p ^ k * (1 - p) ^ ((n - (k + 1)) + 1) := by
        rw [pow_succ]; ring
    _ = (n.choose k : ℚ) * p ^ k * (1 - p) ^ (n - k) := by rw [← hsub]

lemma binomPMF_le_succ {n k : ℕ} {p : ℚ} (hp0 : 0 ≤ p) (hp1 : p ≤ 1)
    (hnp : (k : ℚ) + 1 ≤ (n : ℚ) * p) :
    binomPMF n k p ≤ binomPMF n (k + 1) p := by
  have hk : k + 1 ≤ n := by
    have h1 : ((k : ℚ) + 1) ≤ (n : ℚ) := le_trans hnp (by nlinarith [Nat.cast_nonneg (α := ℚ) n])
    exact_mod_cast h1
  have hkn : k ≤ n := by omega
  have hsub : n - k = (n - (k + 1)) + 1 := by omega
  have hchoose : (n.choose (k + 1) : ℚ) * ((k : ℚ) + 1) =
      (n.choose k : ℚ) * ((n : ℚ) - (k : ℚ)) := by
    have h := congrArg (fun m : ℕ => (m : ℚ)) (Nat.choose_succ_right_eq n k)
    push_cast [Nat.cast_sub hkn] at h
    exact h
  have hkey : ((k : ℚ) + 1) * (1 - p) ≤ ((n : ℚ) - k) * p := by nlinarith
  have hmain : (n.choose k : ℚ) * (1 - p) ≤ (n.choose (k + 1) : ℚ) * p := by
    have hpos : (0 : ℚ) < (k : ℚ) + 1 := by positivity
    rw [← mul_le_mul_right hpos]
    calc (n.choose k : ℚ) * (1 - p) * ((k : ℚ) + 1)
        = (n.choose k : ℚ) * (((k : ℚ) + 1) * (1 - p)) := by ring
      _ ≤ (n.choose k : ℚ) * (((n : ℚ) - k) * p) :=
          mul_le_mul_of_nonneg_left hkey (Nat.cast_nonneg _)
      _ = ((n.choose k : ℚ) * ((n : ℚ) - (k : ℚ))) * p := by ring
      _ = ((n.choose (k + 1) : ℚ) * ((k : ℚ) + 1)) * p := by rw [hchoose]
      _ = (n.choose (k + 1) : ℚ) * p * ((k : ℚ) + 1) := by ring
  have ht : (0 : ℚ) ≤ p ^ k * (1 - p) ^ (n - (k + 1)) :=
    mul_nonneg (pow_nonneg hp0 _) (pow_nonneg (by linarith) _)
  unfold binomPMF
  calc (n.choose k : ℚ) * p ^ k * (1 - p) ^ (n - k)
      = (n.choose k : ℚ) * p ^ k * (1 - p) ^ ((n - (k + 1)) + 1) := by rw [← hsub]
    _ = ((n.choose k : ℚ) * (1 - p)) * (p ^ k * (1 - p) ^ (n - (k + 1))) := by
        rw [pow_succ]; ring
    _ ≤ ((n.choose (k + 1) : ℚ) * p) * (p ^ k * (1 - p) ^ (n - (k + 1))) :=
        mul_le_mul_of_nonneg_right hmain ht
    _ = (n.choose (k + 1) : ℚ) * p ^ (k + 1) * (1 - p) ^ (n - (k + 1)) := by
        rw [pow_succ]; ring

lemma binomPMF_antitone_upper {n : ℕ} {p : ℚ} (hp0 : 0 ≤ p) (hp1 : p ≤ 1)
    {k1 k2 : ℕ} (hnp : (n : ℚ) * p ≤ k1) (h12 : k1 ≤ k2) (h2n : k2 ≤ n) :
    binomPMF n k2 p ≤ binomPMF n k1 p := by
  have H : ∀ m, k1 ≤ m → m ≤ n → binomPMF n m p ≤ binomPMF n k1 p := by
    intro m hm
    induction m, hm using Nat.le_induction with
    | base => intro _; exact le_refl _
    | succ m hm ih =>
      intro hmn
      have h1 : binomPMF n (m + 1) p ≤ binomPMF n m p :=
        binomPMF_succ_le hp0 hp1
          (le_trans hnp (by exact_mod_cast hm)) hmn
      exact le_trans h1 (ih (by omega))
  exact H k2 h12 h2n

lemma binomPMF_mono_lower {n : ℕ} {p : ℚ} (hp0 : 0 ≤ p) (hp1 : p ≤ 1)
    {k1 k2 : ℕ} (h21 : k2 ≤ k1) (hnp : (k1 : ℚ) ≤ (n : ℚ) * p) :
    binomPMF n k2 p ≤ binomPMF n k1 p := by
  have H : ∀ m, k2 ≤ m → ((m : ℚ) ≤ (n : ℚ) * p) →
      binomPMF n k2 p ≤ binomPMF n m p := by
    intro m hm
    induction m, hm using Nat.le_induction with
    | base => intro _; exact le_refl _
    | succ m hm ih =>
      intro hmn
      push_cast at hmn
      have hstep : binomPMF n m p ≤ binomPMF n (m + 1) p :=
        binomPMF_le_succ hp0 hp1 hmn
      exact le_trans (ih (by linarith)) hstep
  exact H k1 h21 hnp

lemma binomTestTwoSided_mono {n a b : ℕ} {p : ℚ} (hp0 : 0 ≤ p) (hp1 : p ≤ 1)
    (h : binomPMF n a p ≤ binomPMF n b p) :
    binomTestTwoSided a n p ≤ binomTestTwoSided b n p := by
  unfold binomTestTwoSided
  refine Finset.sum_le_sum fun j _ => ?_
  by_cases hj : binomPMF n j p ≤ binomPMF n a p
  · rw [if_pos hj, if_pos (le_trans hj h)]
  · rw [if_neg hj]
    split
    · exact binomPMF_nonneg hp0 hp1 n j
    · exact le_refl 0

/-! ## Claim theorems -/

/-- C1: for `n ≥ 1`, `0 ≤ k ≤ n` and `p` strictly in `(0,1)`,
`binomial_p_value(n, k, p)` is the exact two-sided binomial test p-value:
the sum of the binomial PMF over every outcome `j` in `[0, n]` whose PMF is
`≤` the PMF at the observed `k`; and the result lies in `[0, 1]`. -/
theorem binomial_p_value_exact_two_sided (n k : ℤ) (p : ℚ) (hn : 1 ≤ n)
    (hk0 : 0 ≤ k) (hkn : k ≤ n) (hp0 : 0 < p) (hp1 : p < 1) :
    binomial_p_value n k p =
      some (∑ j ∈ Finset.range (n.toNat + 1),
        if binomPMF n.toNat j p ≤ binomPMF n.toNat k.toNat p
        then binomPMF n.toNat j p else 0) ∧
    0 ≤ binomTestTwoSided k.toNat n.toNat p ∧
    binomTestTwoSided k.toNat n.toNat p ≤ 1 := by
  refine ⟨binomial_p_value_in_range hn hk0 hkn hp0 hp1, ?_, ?_⟩
  · exact binomTestTwoSided_nonneg hp0.le hp1.le _ _
  · exact binomTestTwoSided_le_one hp0.le hp1.le _ _

/-- C1 witness: the theorem instantiated at `n = 4`, `k = 3`, `p = 1/2`,
where the p-value evaluates to `5/8`. -/
theorem binomial_p_value_exact_two_sided_witness :
    (binomial_p_value 4 3 (1/2) =
      some (∑ j ∈ Finset.range ((4:ℤ).toNat + 1),
        if binomPMF (4:ℤ).toNat j (1/2) ≤ binomPMF (4:ℤ).toNat (3:ℤ).toNat (1/2)
        then binomPMF (4:ℤ).toNat j (1/2) else 0) ∧
     0 ≤ binomTestTwoSided (3:ℤ).toNat (4:ℤ).toNat (1/2) ∧
     binomTestTwoSided (3:ℤ).toNat (4:ℤ).toNat (1/2) ≤ 1) ∧
    binomial_p_value 4 3 (1/2) = some (5/8) :=
  ⟨binomial_p_value_exact_two_sided 4 3 (1/2) (by norm_num) (by norm_num)
      (by norm_num) (by norm_num) (by norm_num),
   by norm_num [binomial_p_value, binomTestTwoSided, binomPMF,
     Finset.sum_range_succ, show (4:ℤ).toNat = 4 from rfl,
     show (3:ℤ).toNat = 3 from rfl, show Nat.choose 4 2 = 6 from rfl]⟩

/-- C6: whenever `n ≤ 0`, `p ≤ 0` or `p ≥ 1`, `binomial_p_value` returns
exactly `1.0`. -/
theorem binomial_p_value_degenerate (n k : ℤ) (p : ℚ)
    (h : n ≤ 0 ∨ p ≤ 0 ∨ 1 ≤ p) : binomial_p_value n k p = some 1 := by
  unfold binomial_p_value
  rw [if_pos h]

/-- C6 witness: in particular `binomial_p_value(0, 0, 0.5) = 1.0`. -/
theorem binomial_p_value_degenerate_witness :
    (0:ℤ) ≤ 0 ∧ binomial_p_value 0 0 (1/2) = some 1 :=
  ⟨le_refl 0, binomial_p_value_degenerate 0 0 (1/2) (Or.inl (le_refl 0))⟩

/-- C9 counterexample: at `n = 1 ≥ 1`, `p = 1/2 ∈ (0,1)` and `k = 2 > n`,
`binomial_p_value` does not return an ordinary value — the delegated
`scipy.stats.binomtest` call raises `ValueError` (modelled `none`). -/
theorem binomial_p_value_out_of_range_counterexample :
    (1:ℤ) ≥ 1 ∧ (0:ℚ) < 1/2 ∧ (1/2:ℚ) < 1 ∧ (2:ℤ) > 1 ∧
    binomial_p_value 1 2 (1/2) = none := by
  refine ⟨le_refl 1, by norm_num, by norm_num, by norm_num, ?_⟩
  norm_num [binomial_p_value]

/-- C9 amended: for `n ≥ 1` and `p` strictly in `(0,1)`, a `k` outside
`[0, n]` makes `binomial_p_value` fail (the underlying library call raises
`ValueError`) rather than return a value; it returns an ordinary value
exactly when `0 ≤ k ≤ n`. -/
theorem binomial_p_value_out_of_range (n k : ℤ) (p : ℚ) (hn : 1 ≤ n)
    (hp0 : 0 < p) (hp1 : p < 1) :
    (k < 0 ∨ n < k → binomial_p_value n k p = none) ∧
    (0 ≤ k → k ≤ n → (binomial_p_value n k p).isSome = true) := by
  constructor
  · intro h
    unfold binomial_p_value
    rw [if_neg (by push_neg; exact ⟨by linarith, hp0, hp1⟩), if_pos h]
  · intro hk0 hkn
    rw [binomial_p_value_in_range hn hk0 hkn hp0 hp1]
    rfl

/-- C9 amended witness: instantiated at `n = 1`, `p = 1/2`, `k = 2` (out of
range, so `none`) and `k = 1` (in range, so `some`). -/
theorem binomial_p_value_out_of_range_witness :
    (1:ℤ) ≤ 1 ∧ (0:ℚ) < 1/2 ∧ (1/2:ℚ) < 1 ∧ ((2:ℤ) < 0 ∨ (1:ℤ) < 2) ∧
    binomial_p_value 1 2 (1/2) = none :=
  ⟨le_refl 1, by norm_num, by norm_num, Or.inr (by norm_num),
   (binomial_p_value_out_of_range 1 2 (1/2) (le_refl 1) (by norm_num)
     (by norm_num)).1 (Or.inr (by norm_num))⟩

/-- C10: `calculate_relative_likelihood` returns a list for every nonempty
probability list, but on the empty list the uniform-fallback branch divides
by `len(probabilities) = 0` and the call fails (`ZeroDivisionError`). -/
theorem calculate_relative_likelihood_totality (n k : ℤ) (ps : List ℚ) :
    (ps ≠ [] → (calculate_relative_likelihood n k ps).isSome = true) ∧
    calculate_relative_likelihood n k [] = none := by
  constructor
  · intro h
    have hlen : ps.length ≠ 0 := fun hlen => h (List.length_eq_zero.mp hlen)
    simp only [calculate_relative_likelihood]
    split_ifs <;> simp_all
  · simp [calculate_relative_likelihood]

/-- C10 witness: instantiated at `n = 2`, `k = 1`, `probabilities = [1/2]`. -/
theorem calculate_relative_likelihood_totality_witness :
    ([(1:ℚ)/2] ≠ [] ∧
      (calculate_relative_likelihood 2 1 [(1:ℚ)/2]).isSome = true) ∧
    calculate_relative_likelihood 2 1 [] = none :=
  ⟨⟨by simp, (calculate_relative_likelihood_totality 2 1 [(1:ℚ)/2]).1 (by simp)⟩,
   (calculate_relative_likelihood_totality 2 1 []).2⟩

/-- C2: on a nonempty probability list, `calculate_relative_likelihood`
returns a same-length list whose entry `i` is the raw likelihood of
`probabilities[i]` divided by the sum of all raw likelihoods — or `1/len`
for every entry when that sum is exactly `0` — and the output sums to `1`. -/
theorem calculate_relative_likelihood_normalized (n k : ℤ) (ps : List ℚ)
    (hne : ps ≠ []) :
    ∃ l, calculate_relative_likelihood n k ps = some l ∧
      l.length = ps.length ∧
      (∀ i, i < ps.length →
        l.getD i 0 =
          if (ps.map (calculate_likelihood n k)).sum = 0
          then 1 / (ps.length : ℚ)
          else calculate_likelihood n k (ps.getD i 0) /
            (ps.map (calculate_likelihood n k)).sum) ∧
      l.sum = 1 := by
  have hlen : ps.length ≠ 0 := fun h0 => hne (List.length_eq_zero.mp h0)
  by_cases ht : (ps.map (calculate_likelihood n k)).sum = 0
  · refine ⟨List.replicate ps.length (1 / (ps.length : ℚ)), ?_, by simp, ?_, ?_⟩
    · simp only [calculate_relative_likelihood]
      rw [if_pos ht, if_neg hlen]
    · intro i hi
      rw [if_pos ht, List.getD_eq_getElem?_getD, List.getElem?_replicate,
        if_pos hi]
      rfl
    · rw [List.sum_replicate, nsmul_eq_mul]
      have : (ps.length : ℚ) ≠ 0 := Nat.cast_ne_zero.mpr hlen
      field_simp
  · refine ⟨(ps.map (calculate_likelihood n k)).map
      (fun x => x / (ps.map (calculate_likelihood n k)).sum), ?_, by simp, ?_, ?_⟩
    · simp only [calculate_relative_likelihood]
      rw [if_neg ht]
    · intro i hi
      have hpi : ps[i]? = some ps[i] := List.getElem?_eq_getElem hi
      rw [if_neg ht]
      simp [List.getD_eq_getElem?_getD, hpi]
    · rw [list_sum_map_div, div_self ht]

/-- C2 witness: instantiated at `n = 2`, `k = 1`, `probabilities = [1/2]`. -/
theorem calculate_relative_likelihood_normalized_witness :
    [(1:ℚ)/2] ≠ [] ∧
    ∃ l, calculate_relative_likelihood 2 1 [(1:ℚ)/2] = some l ∧
      l.length = [(1:ℚ)/2].length ∧
      (∀ i, i < [(1:ℚ)/2].length →
        l.getD i 0 =
          if ([(1:ℚ)/2].map (calculate_likelihood 2 1)).sum = 0
          then 1 / ([(1:ℚ)/2].length : ℚ)
          else calculate_likelihood 2 1 ([(1:ℚ)/2].getD i 0) /
            ([(1:ℚ)/2].map (calculate_likelihood 2 1)).sum) ∧
      l.sum = 1 :=
  ⟨by simp, calculate_relative_likelihood_normalized 2 1 [(1:ℚ)/2] (by simp)⟩

/-- C3 counterexample: with all candidates unset (`p = 0`, outside `(0,1)`),
the degenerate uniform fallback assigns each of them relative likelihood
`1/3 > 0`, so a non-participating candidate does receive a positive
relative likelihood. -/
theorem unset_candidate_counterexample :
    calculate_relative_likelihood 100 10 [0, 0, 0] = some [1/3, 1/3, 1/3] ∧
    (0:ℚ) ≤ 0 ∧ ¬ ((1:ℚ)/3 ≤ 0) := by
  refine ⟨?_, le_refl 0, by norm_num⟩
  norm_num [calculate_relative_likelihood, calculate_likelihood, List.replicate]

/-- C3 amended: a candidate whose probability is not strictly in `(0,1)`
has raw likelihood `0`, so whenever the total likelihood is nonzero its
relative likelihood is `0`; but in the degenerate all-zero case the uniform
fallback distributes `1/len` over every candidate, non-participating ones
included. -/
theorem unset_candidate_relative_likelihood (n k : ℤ) (ps : List ℚ) (i : ℕ)
    (hi : i < ps.length) (hout : ps.getD i 0 ≤ 0 ∨ 1 ≤ ps.getD i 0) :
    ((ps.map (calculate_likelihood n k)).sum ≠ 0 →
      ∀ l, calculate_relative_likelihood n k ps = some l → l.getD i 0 = 0) ∧
    ((ps.map (calculate_likelihood n k)).sum = 0 →
      calculate_relative_likelihood n k ps =
        some (List.replicate ps.length (1 / (ps.length : ℚ)))) := by
  have hpi : ps[i]? = some ps[i] := List.getElem?_eq_getElem hi
  have hgd : ps.getD i 0 = ps[i] := by
    rw [List.getD_eq_getElem?_getD, hpi]
    rfl
  have hzero : calculate_likelihood n k ps[i] = 0 := by
    rw [← hgd]
    unfold calculate_likelihood
    rcases hout with h | h
    · rw [if_pos (Or.inr (Or.inl h))]
    · rw [if_pos (Or.inr (Or.inr h))]
  constructor
  · intro ht l hl
    simp only [calculate_relative_likelihood] at hl
    rw [if_neg ht] at hl
    have hl' := (Option.some_injective _ hl).symm
    subst hl'
    simp [List.getD_eq_getElem?_getD, hpi, hzero]
  · intro ht
    simp only [calculate_relative_likelihood]
    rw [if_pos ht, if_neg (by omega)]

/-- C3 amended witness: instantiated at `n = 2`, `k = 1`,
`probabilities = [1/2, 0]`, candidate `i = 1` unset, total likelihood
`1/2 ≠ 0`: the unset candidate's relative likelihood is `0`. -/
theorem unset_candidate_relative_likelihood_witness :
    1 < [(1:ℚ)/2, 0].length ∧
    ([(1:ℚ)/2, 0].getD 1 0 ≤ 0 ∨ 1 ≤ [(1:ℚ)/2, 0].getD 1 0) ∧
    ([(1:ℚ)/2, 0].map (calculate_likelihood 2 1)).sum ≠ 0 ∧
    (∀ l, calculate_relative_likelihood 2 1 [(1:ℚ)/2, 0] = some l →
      l.getD 1 0 = 0) :=
  ⟨by norm_num, Or.inl (le_refl 0),
   by norm_num [calculate_likelihood, binomPMF,
     show (2:ℤ).toNat = 2 from rfl, show (1:ℤ).toNat = 1 from rfl],
   (unset_candidate_relative_likelihood 2 1 [(1:ℚ)/2, 0] 1 (by norm_num)
       (Or.inl (le_refl 0))).1
     (by norm_num [calculate_likelihood, binomPMF,
       show (2:ℤ).toNat = 2 from rfl, show (1:ℤ).toNat = 1 from rfl])⟩

/-- C4 counterexample: at `p_value = 2/5`, `significance = 3/5` the code
returns the weakly-reject verdict "△" (since `2/5 < 3/5`), yet
`2/5 ≥ 0.25`, so the claimed "strongly-support iff `p_value ≥ 0.25`"
equivalence fails: the four claimed regions overlap once
`significance > 0.25`. -/
theorem evaluate_setting_counterexample :
    ¬ (((evaluate_setting (2/5) (3/5)).1 = "◎") ↔ ((1:ℚ)/4 ≤ 2/5)) := by
  have h : evaluate_setting (2/5) (3/5) = ("△", "やや否定的") := by
    norm_num [evaluate_setting]
  rw [h]
  intro hiff
  exact absurd (hiff.mpr (by norm_num)) (by decide)

/-- C4 amended: for `0 ≤ significance ≤ 0.25` (so that the cascading
thresholds `significance/2 ≤ significance ≤ 0.25` are ordered — the code
applies them in cascade), `evaluate_setting` returns "✗" iff
`p < significance/2`, "△" iff `significance/2 ≤ p < significance`, "○" iff
`significance ≤ p < 0.25`, and "◎" iff `p ≥ 0.25`; the `0.25` boundary is a
fixed constant independent of `significance`. -/
theorem evaluate_setting_regions (p s : ℚ) (hs0 : 0 ≤ s) (hs : s ≤ 1/4) :
    ((evaluate_setting p s).1 = "✗" ↔ p < s / 2) ∧
    ((evaluate_setting p s).1 = "△" ↔ s / 2 ≤ p ∧ p < s) ∧
    ((evaluate_setting p s).1 = "○" ↔ s ≤ p ∧ p < 1/4) ∧
    ((evaluate_setting p s).1 = "◎" ↔ 1/4 ≤ p) := by
  unfold evaluate_setting
  split_ifs with h1 h2 h3
  · exact ⟨iff_of_true rfl h1,
      iff_of_false (by decide) (by rintro ⟨a, _⟩; linarith),
      iff_of_false (by decide) (by rintro ⟨a, _⟩; linarith),
      iff_of_false (by decide) (by intro a; linarith)⟩
  · exact ⟨iff_of_false (by decide) h1,
      iff_of_true rfl ⟨not_lt.mp h1, h2⟩,
      iff_of_false (by decide) (by rintro ⟨a, _⟩; linarith),
      iff_of_false (by decide) (by intro a; linarith)⟩
  · exact ⟨iff_of_false (by decide) h1,
      iff_of_false (by decide) (by rintro ⟨_, b⟩; exact h2 b),
      iff_of_true rfl ⟨not_lt.mp h2, h3⟩,
      iff_of_false (by decide) (by intro a; linarith)⟩
  · exact ⟨iff_of_false (by decide) (fun a => h3 (by linarith)),
      iff_of_false (by decide) (by rintro ⟨_, b⟩; exact h3 (by linarith)),
      iff_of_false (by decide) (by rintro ⟨_, b⟩; exact h3 b),
      iff_of_true rfl (not_lt.mp h3)⟩

/-- C4 amended witness: instantiated at `p_value = 3/100`,
`significance = 1/20` (the Python default), a weakly-reject case. -/
theorem evaluate_setting_regions_witness :
    (0:ℚ) ≤ 1/20 ∧ (1/20:ℚ) ≤ 1/4 ∧
    (((evaluate_setting (3/100) (1/20)).1 = "✗" ↔ (3:ℚ)/100 < (1/20) / 2) ∧
     ((evaluate_setting (3/100) (1/20)).1 = "△" ↔
       (1/20:ℚ) / 2 ≤ 3/100 ∧ (3:ℚ)/100 < 1/20) ∧
     ((evaluate_setting (3/100) (1/20)).1 = "○" ↔
       (1/20:ℚ) ≤ 3/100 ∧ (3:ℚ)/100 < 1/4) ∧
     ((evaluate_setting (3/100) (1/20)).1 = "◎" ↔ (1:ℚ)/4 ≤ 3/100)) :=
  ⟨by norm_num, by norm_num,
   evaluate_setting_regions (3/100) (1/20) (by norm_num) (by norm_num)⟩

/-- C7: the parser applies its rules in priority order — trailing `%`
divides by 100, a two-part `a/b` with `b ≠ 0` returns `a/b`, a plain
decimal `v > 1` is inverted and `v ≤ 1` kept — so `"1/6.5"`, `"6.5"` and
`"15.3846%"` agree within `1e-3` (≈ 0.15385) and `"0.2"` parses to `0.2`. -/
theorem parse_probability_input_examples :
    parse_probability_input "1/6.5" = some (2/13) ∧
    parse_probability_input "6.5" = some (2/13) ∧
    parse_probability_input "15.3846%" = some (76923/500000) ∧
    |(2:ℚ)/13 - 76923/500000| < 1/1000 ∧
    parse_probability_input "0.2" = some (1/5) := by
  refine ⟨?_, ?_, ?_, ?_, ?_⟩
  · have step : parse_probability_input "1/6.5" =
        (if ((natOfDigits ['6'] : ℚ) + (natOfDigits ['5'] : ℚ) / 10 ^ 1) ≠ 0
         then some ((natOfDigits ['1'] : ℚ) /
           ((natOfDigits ['6'] : ℚ) + (natOfDigits ['5'] : ℚ) / 10 ^ 1))
         else plainDecimalTail ['1', '/', '6', '.', '5']) := rfl
    rw [step, show natOfDigits ['6'] = 6 from rfl,
      show natOfDigits ['5'] = 5 from rfl, show natOfDigits ['1'] = 1 from rfl]
    norm_num
  · have step : parse_probability_input "6.5" =
        some (if 1 < ((natOfDigits ['6'] : ℚ) + (natOfDigits ['5'] : ℚ) / 10 ^ 1)
          then 1 / ((natOfDigits ['6'] : ℚ) + (natOfDigits ['5'] : ℚ) / 10 ^ 1)
          else ((natOfDigits ['6'] : ℚ) + (natOfDigits ['5'] : ℚ) / 10 ^ 1)) := rfl
    rw [step, show natOfDigits ['6'] = 6 from rfl,
      show natOfDigits ['5'] = 5 from rfl]
    norm_num
  · have step : parse_probability_input "15.3846%" =
        some (((natOfDigits ['1', '5'] : ℚ) +
          (natOfDigits ['3', '8', '4', '6'] : ℚ) / 10 ^ 4) / 100) := rfl
    rw [step, show natOfDigits ['1', '5'] = 15 from rfl,
      show natOfDigits ['3', '8', '4', '6'] = 3846 from rfl]
    norm_num
  · rw [abs_sub_lt_iff]
    constructor <;> norm_num
  · have step : parse_probability_input "0.2" =
        some (if 1 < ((natOfDigits ['0'] : ℚ) + (natOfDigits ['2'] : ℚ) / 10 ^ 1)
          then 1 / ((natOfDigits ['0'] : ℚ) + (natOfDigits ['2'] : ℚ) / 10 ^ 1)
          else ((natOfDigits ['0'] : ℚ) + (natOfDigits ['2'] : ℚ) / 10 ^ 1)) := rfl
    rw [step, show natOfDigits ['0'] = 0 from rfl,
      show natOfDigits ['2'] = 2 from rfl]
    norm_num

/-- C8: `get_confidence_interval` matches the spec formula (degenerate
`(0,1)` for `n ≤ 0`, otherwise `(max 0 (p - z·se), min 1 (p + z·se))` with
`z = ppf((1+confidence)/2)` and `se = sqrt(p(1-p)/n)`), and
`get_expected_count_range` is that interval with both bounds scaled by `n`. -/
theorem confidence_interval_spec (ppf sqrt : ℚ → ℚ) (p : ℚ) (n : ℤ)
    (confidence : ℚ) :
    get_confidence_interval ppf sqrt p n confidence =
      specConfidenceInterval ppf sqrt p n confidence ∧
    (n ≤ 0 → get_confidence_interval ppf sqrt p n confidence = (0, 1)) ∧
    get_expected_count_range ppf sqrt p n confidence =
      ((get_confidence_interval ppf sqrt p n confidence).1 * (n : ℚ),
       (get_confidence_interval ppf sqrt p n confidence).2 * (n : ℚ)) := by
  refine ⟨?_, fun h => ?_, rfl⟩
  · unfold get_confidence_interval specConfidenceInterval
    split_ifs <;> rfl
  · unfold get_confidence_interval
    rw [if_pos h]

/-- C8 witness: instantiated at `ppf = const 2`, `sqrt = id`, `p = 1/2`,
`n = 0 ≤ 0`, `confidence = 19/20`, where the interval degenerates. -/
theorem confidence_interval_spec_witness :
    (get_confidence_interval (fun _ => (2:ℚ)) (fun x => x) (1/2) 0 (19/20) =
       specConfidenceInterval (fun _ => (2:ℚ)) (fun x => x) (1/2) 0 (19/20) ∧
     ((0:ℤ) ≤ 0 →
       get_confidence_interval (fun _ => (2:ℚ)) (fun x => x) (1/2) 0 (19/20) =
         (0, 1)) ∧
     get_expected_count_range (fun _ => (2:ℚ)) (fun x => x) (1/2) 0 (19/20) =
       ((get_confidence_interval (fun _ => (2:ℚ)) (fun x => x) (1/2) 0
           (19/20)).1 * ((0:ℤ) : ℚ),
        (get_confidence_interval (fun _ => (2:ℚ)) (fun x => x) (1/2) 0
           (19/20)).2 * ((0:ℤ) : ℚ))) ∧
    get_confidence_interval (fun _ => (2:ℚ)) (fun x => x) (1/2) 0 (19/20) =
      (0, 1) :=
  ⟨confidence_interval_spec (fun _ => (2:ℚ)) (fun x => x) (1/2) 0 (19/20),
   (confidence_interval_spec (fun _ => (2:ℚ)) (fun x => x) (1/2) 0
       (19/20)).2.1 (le_refl 0)⟩

/-- C5: for `p` in `(0,1)` and `n ≥ 1` the two-sided p-value decreases
monotonically as `k` moves away from `n·p` within one tail: if
`n·p ≤ k1 ≤ k2` then `binomial_p_value(n, k2, p) ≤ binomial_p_value(n, k1, p)`,
and symmetrically if `k2 ≤ k1 ≤ n·p`. -/
theorem binomial_p_value_tail_monotone (n k1 k2 : ℕ) (p : ℚ) (v1 v2 : ℚ)
    (hp0 : 0 < p) (hp1 : p < 1) (hn : 1 ≤ n)
    (h1 : binomial_p_value (n : ℤ) (k1 : ℤ) p = some v1)
    (h2 : binomial_p_value (n : ℤ) (k2 : ℤ) p = some v2) :
    ((n : ℚ) * p ≤ k1 → k1 ≤ k2 → v2 ≤ v1) ∧
    (k2 ≤ k1 → (k1 : ℚ) ≤ (n : ℚ) * p → v2 ≤ v1) := by
  have hnz : (1 : ℤ) ≤ (n : ℤ) := by exact_mod_cast hn
  have hg : ¬((n : ℤ) ≤ 0 ∨ p ≤ 0 ∨ 1 ≤ p) := by
    push_neg
    exact ⟨by omega, hp0, hp1⟩
  have hle : ∀ m : ℕ, binomial_p_value (n : ℤ) (m : ℤ) p = some v2 ∨
      binomial_p_value (n : ℤ) (m : ℤ) p = some v1 → m ≤ n := by
    intro m hm
    by_contra hgt
    have hnone : binomial_p_value (n : ℤ) (m : ℤ) p = none := by
      unfold binomial_p_value
      rw [if_neg hg, if_pos (Or.inr (by exact_mod_cast Nat.lt_of_not_le hgt))]
    rcases hm with h | h <;> rw [hnone] at h <;> exact Option.noConfusion h
  have hk1n : k1 ≤ n := hle k1 (Or.inr h1)
  have hk2n : k2 ≤ n := hle k2 (Or.inl h2)
  have e1 : binomial_p_value (n : ℤ) (k1 : ℤ) p =
      some (binomTestTwoSided k1 n p) := by
    have := binomial_p_value_in_range hnz (Int.natCast_nonneg k1)
      (by exact_mod_cast hk1n) hp0 hp1
    simpa [Int.toNat_natCast] using this
  have e2 : binomial_p_value (n : ℤ) (k2 : ℤ) p =
      some (binomTestTwoSided k2 n p) := by
    have := binomial_p_value_in_range hnz (Int.natCast_nonneg k2)
      (by exact_mod_cast hk2n) hp0 hp1
    simpa [Int.toNat_natCast] using this
  have hv1 : v1 = binomTestTwoSided k1 n p :=
    Option.some_injective _ (h1.symm.trans e1)
  have hv2 : v2 = binomTestTwoSided k2 n p :=
    Option.some_injective _ (h2.symm.trans e2)
  subst hv1 hv2
  constructor
  · intro hnp h12
    exact binomTestTwoSided_mono hp0.le hp1.le
      (binomPMF_antitone_upper hp0.le hp1.le hnp h12 hk2n)
  · intro h21 hnp
    exact binomTestTwoSided_mono hp0.le hp1.le
      (binomPMF_mono_lower hp0.le hp1.le h21 hnp)

/-- C5 witness: instantiated at `n = 4`, `p = 1/2` (mean `2`), upper-tail
counts `k1 = 2`, `k2 = 3`, with p-values `1` and `5/8`: `5/8 ≤ 1`. -/
theorem binomial_p_value_tail_monotone_witness :
    (0 : ℚ) < 1/2 ∧ (1/2 : ℚ) < 1 ∧ 1 ≤ 4 ∧
    binomial_p_value ((4:ℕ) : ℤ) ((2:ℕ) : ℤ) (1/2) = some 1 ∧
    binomial_p_value ((4:ℕ) : ℤ) ((3:ℕ) : ℤ) (1/2) = some (5/8) ∧
    (((4:ℕ) : ℚ) * (1/2) ≤ (2:ℕ) → (2:ℕ) ≤ (3:ℕ) → (5:ℚ)/8 ≤ 1) ∧
    ((3:ℕ) ≤ (2:ℕ) → ((2:ℕ) : ℚ) ≤ ((4:ℕ) : ℚ) * (1/2) → (5:ℚ)/8 ≤ 1) := by
  have e1 : binomial_p_value ((4:ℕ) : ℤ) ((2:ℕ) : ℤ) (1/2) = some 1 := by
    norm_num [binomial_p_value, binomTestTwoSided, binomPMF,
      Finset.sum_range_succ, show (4:ℤ).toNat = 4 from rfl,
      show (2:ℤ).toNat = 2 from rfl, show Nat.choose 4 2 = 6 from rfl]
  have e2 : binomial_p_value ((4:ℕ) : ℤ) ((3:ℕ) : ℤ) (1/2) = some (5/8) := by
    norm_num [binomial_p_value, binomTestTwoSided, binomPMF,
      Finset.sum_range_succ, show (4:ℤ).toNat = 4 from rfl,
      show (3:ℤ).toNat = 3 from rfl, show Nat.choose 4 2 = 6 from rfl]
  refine ⟨by norm_num, by norm_num, by norm_num, e1, e2, ?_, ?_⟩
  · exact (binomial_p_value_tail_monotone 4 2 3 (1/2) 1 (5/8) (by norm_num)
      (by norm_num) (by norm_num) e1 e2).1
  · exact (binomial_p_value_tail_monotone 4 2 3 (1/2) 1 (5/8) (by norm_num)
      (by norm_num) (by norm_num) e1 e2).2

end Pachislot
